import Mathlib

/-!
Verification of the SPDZ client proxy's binary codec, frame reassembler,
session registry and bootstrap launcher.

Bytes are modelled as natural numbers (values below 256 where it matters) and
Node `Buffer`s as `List Nat`.  Fallible operations (JavaScript `throw`) are
modelled with `Except String`.
-/

namespace SpdzProxy

/-- Little-endian read of the first four bytes of a buffer, as performed by
`buf.readUInt32LE(0)`.  Callers guard the length, so the underflow arm is
never reached on inputs accepted by `calculatePayloadLength`. -/
def readUInt32LE : List Nat → Nat
  | b0 :: b1 :: b2 :: b3 :: _ => b0 + 256 * b1 + 65536 * b2 + 16777216 * b3
  | _ => 0

/-- Four-byte little-endian encoding of a payload size, as produced by
`generatePayloadHeader` (`Buffer.alloc(4)` + `writeInt32LE`); for sizes within
the non-negative `Int32` range the signed write emits exactly these bytes. -/
def header4LE (n : Nat) : List Nat :=
  [n % 256, n / 256 % 256, n / 65536 % 256, n / 16777216 % 256]

theorem header4LE_length (n : Nat) : (header4LE n).length = 4 := rfl

theorem readUInt32LE_header4LE (n : Nat) (rest : List Nat) (h : n < 4294967296) :
    readUInt32LE (header4LE n ++ rest) = n := by
  simp only [header4LE, List.cons_append, List.nil_append, readUInt32LE]
  omega

/-- Model of Node's `src.copy(target, targetStart)`: overwrites
`min (src.length) (target.length - targetStart)` bytes of `target` starting at
`targetStart` with the corresponding prefix of `src`; the target keeps its
length. -/
def bufCopy (target : List Nat) (targetStart : Nat) (src : List Nat) : List Nat :=
  target.take targetStart
    ++ src.take (target.length - targetStart)
    ++ target.drop (targetStart + min src.length (target.length - targetStart))

/-- Message of the framing error thrown by `calculatePayloadLength`. -/
def framingErrorMsg (n : Nat) : String :=
  "A new server transmission must include a 4 byte length header, actual buffer length "
    ++ toString n ++ ". Ignoring data."

/-- Model of `calculatePayloadLength` from `spdzDataConversion.js`: a framing
error when fewer than 4 bytes are supplied, otherwise the little-endian
unsigned 32-bit value of the first four bytes. -/
def calculatePayloadLength (buf : List Nat) : Except String Nat :=
  if buf.length < 4 then
    Except.error (framingErrorMsg buf.length)
  else
    Except.ok (readUInt32LE buf)

/-- Model of the exported `payloadLengthFromHeader`, a direct wrapper of
`calculatePayloadLength`. -/
def payloadLengthFromHeader (buf : List Nat) : Except String Nat :=
  calculatePayloadLength buf

/-- C3: `payloadLengthFromHeader` raises a framing error if and only if the
buffer holds fewer than 4 bytes; on any buffer with at least 4 bytes it
returns the first four bytes read as a little-endian unsigned 32-bit integer,
and in particular every 3-byte buffer fails. -/
theorem payloadLengthFromHeader_spec (buf : List Nat) :
    ((∃ e, payloadLengthFromHeader buf = Except.error e) ↔ buf.length < 4) ∧
    (∀ b0 b1 b2 b3 rest, buf = b0 :: b1 :: b2 :: b3 :: rest →
      payloadLengthFromHeader buf =
        Except.ok (b0 + 256 * b1 + 65536 * b2 + 16777216 * b3)) ∧
    (buf.length = 3 → ∃ e, payloadLengthFromHeader buf = Except.error e) := by
  refine ⟨⟨fun he => ?_, fun hlt => ⟨framingErrorMsg buf.length, ?_⟩⟩,
    fun b0 b1 b2 b3 rest hbuf => ?_,
    fun h3 => ⟨framingErrorMsg buf.length, ?_⟩⟩
  · by_contra hge
    obtain ⟨e, he⟩ := he
    simp only [payloadLengthFromHeader, calculatePayloadLength, if_neg hge] at he
    cases he
  · simp only [payloadLengthFromHeader, calculatePayloadLength, if_pos hlt]
  · subst hbuf
    have hge : ¬ (b0 :: b1 :: b2 :: b3 :: rest).length < 4 := by
      simp only [List.length_cons]
      omega
    simp only [payloadLengthFromHeader, calculatePayloadLength, if_neg hge, readUInt32LE]
  · have hlt : buf.length < 4 := by omega
    simp only [payloadLengthFromHeader, calculatePayloadLength, if_pos hlt]

/-- Witness for C3 at the concrete buffers used by the repository's tests:
`[32, 1, 0, 0]` decodes to 288 and the 3-byte `[32, 1, 0]` fails. -/
theorem payloadLengthFromHeader_spec_witness :
    payloadLengthFromHeader [32, 1, 0, 0] = Except.ok 288 ∧
    (∃ e, payloadLengthFromHeader [32, 1, 0] = Except.error e) := by
  constructor
  · have h := (payloadLengthFromHeader_spec [32, 1, 0, 0]).2.1 32 1 0 0 [] rfl
    simpa using h
  · exact (payloadLengthFromHeader_spec [32, 1, 0]).2.2 rfl

/-- Per-session reassembly state of `SpdzServerData` (`spdzServerData.js`):
the FIFO of completed messages, the number of payload bytes still expected
(0 meaning "awaiting a header"), and the carried-over bytes.  The JavaScript
class also stores a `clientId` used only in log messages; it plays no part in
the behaviour and is omitted. -/
structure SpdzServerData where
  serverTransmission : List (List Nat)
  expectedBytes : Nat
  incompleteTransmission : List Nat
deriving DecidableEq

/-- State established by the `SpdzServerData` constructor: empty FIFO, no
expected bytes, empty carryover. -/
def SpdzServerData.init : SpdzServerData :=
  { serverTransmission := [], expectedBytes := 0, incompleteTransmission := [] }

/-- Model of `extractPayloadFromBuffer` from `spdzDataConversion.js`.
Concatenates the carryover with the incoming chunk, reads a 4-byte header when
`expectedBytes = 0` (failing if fewer than 4 bytes are available), slices the
payload and the remainder, and zeroes `expectedBytes` when the payload is
complete. -/
def extractPayloadFromBuffer (socketChunk : List Nat) (expectedBytes : Nat)
    (remainingChunk : List Nat) :
    Except String (List Nat × Nat × List Nat) :=
  let buf := remainingChunk ++ socketChunk
  if expectedBytes = 0 then
    match calculatePayloadLength buf with
    | Except.error e => Except.error e
    | Except.ok n =>
      let payload := (buf.drop 4).take n
      let remainder := buf.drop (4 + n)
      Except.ok (payload, if payload.length = n then 0 else n, remainder)
  else
    let payload := buf.take expectedBytes
    let remainder := buf.drop expectedBytes
    Except.ok (payload, if payload.length = expectedBytes then 0 else expectedBytes, remainder)

/-- Fuelled model of `SpdzServerData.storeChunk`.  JavaScript exceptions
propagate while mutations already performed persist, so the function returns
the final state together with an optional raised error.  The recursion on the
remainder consumes at least one byte of the combined buffer per step, so any
fuel above `incompleteTransmission.length + chunk.length` is enough and the
fuel-exhaustion arm is unreachable (see `storeChunk`). -/
def storeChunkFuel : Nat → SpdzServerData → List Nat → SpdzServerData × Option String
  | 0, s, _ => (s, some "out of fuel")
  | fuel + 1, s, chunk =>
    match extractPayloadFromBuffer chunk s.expectedBytes s.incompleteTransmission with
    | Except.error e => (s, some e)
    | Except.ok (payload, exp2, remainder) =>
      if exp2 = 0 then
        if remainder = [] then
          ({ serverTransmission := s.serverTransmission ++ [payload],
             expectedBytes := 0, incompleteTransmission := remainder }, none)
        else
          storeChunkFuel fuel
            { serverTransmission := s.serverTransmission ++ [payload],
              expectedBytes := 0, incompleteTransmission := [] } remainder
      else
        ({ s with expectedBytes := exp2, incompleteTransmission := payload }, none)

/-- Model of `SpdzServerData.storeChunk`, with fuel fixed at a sufficient
value. -/
def storeChunk (s : SpdzServerData) (chunk : List Nat) : SpdzServerData × Option String :=
  storeChunkFuel (s.incompleteTransmission.length + chunk.length + 1) s chunk

/-- Harness feeding a sequence of socket chunks through `storeChunk` one at a
time, as the socket `data` handler does, collecting every raised error. -/
def feedChunks : SpdzServerData → List (List Nat) → SpdzServerData × List String
  | s, [] => (s, [])
  | s, chunk :: rest =>
    match storeChunk s chunk with
    | (s1, none) => feedChunks s1 rest
    | (s1, some e) =>
      let r := feedChunks s1 rest
      (r.1, e :: r.2)

/-- Wire encoding of one message: 4-byte little-endian length header followed
by the payload. -/
def encodeRecord (m : List Nat) : List Nat :=
  header4LE m.length ++ m

/-- Wire encoding of a sequence of messages: concatenation of their records. -/
def encodeStream (msgs : List (List Nat)) : List Nat :=
  (msgs.map encodeRecord).flatten

lemma storeChunkFuel_inv (fuel : Nat) :
    ∀ (s : SpdzServerData) (chunk : List Nat) (s1 : SpdzServerData),
      storeChunkFuel fuel s chunk = (s1, none) → s1.expectedBytes = 0 →
        s1.incompleteTransmission = [] := by
  induction fuel with
  | zero =>
    intro s chunk s1 h _
    rw [storeChunkFuel, Prod.mk.injEq] at h
    cases h.2
  | succ f ih =>
    intro s chunk s1 h hexp
    simp only [storeChunkFuel] at h
    cases hE : extractPayloadFromBuffer chunk s.expectedBytes s.incompleteTransmission with
    | error e =>
      rw [hE] at h
      dsimp only at h
      rw [Prod.mk.injEq] at h
      cases h.2
    | ok t =>
      obtain ⟨payload, exp2, remainder⟩ := t
      rw [hE] at h
      dsimp only at h
      by_cases h0 : exp2 = 0
      · rw [if_pos h0] at h
        by_cases hr : remainder = []
        · rw [if_pos hr, Prod.mk.injEq] at h
          rw [← h.1]
          exact hr
        · rw [if_neg hr] at h
          exact ih _ _ _ h hexp
      · rw [if_neg h0, Prod.mk.injEq] at h
        rw [← h.1] at hexp
        exact absurd hexp h0

/-- C10: whenever `storeChunk` returns without raising, `expectedBytes = 0`
implies the carryover is empty — the reassembler never holds a partial header
tail across calls; and at a message boundary a chunk offering fewer than 4
bytes for the next header makes `storeChunk` raise the framing error with the
state unchanged, instead of buffering the bytes. -/
theorem storeChunk_boundary_invariant :
    (∀ (s : SpdzServerData) (chunk : List Nat) (s1 : SpdzServerData),
      storeChunk s chunk = (s1, none) → s1.expectedBytes = 0 →
        s1.incompleteTransmission = []) ∧
    (∀ (s : SpdzServerData) (chunk : List Nat),
      s.expectedBytes = 0 → s.incompleteTransmission = [] → chunk.length < 4 →
        storeChunk s chunk = (s, some (framingErrorMsg chunk.length))) := by
  constructor
  · intro s chunk s1 h hexp
    exact storeChunkFuel_inv _ s chunk s1 h hexp
  · intro s chunk hexp hinc hlen
    have hE : extractPayloadFromBuffer chunk s.expectedBytes s.incompleteTransmission
        = Except.error (framingErrorMsg chunk.length) := by
      simp only [extractPayloadFromBuffer, hexp, hinc, List.nil_append,
        calculatePayloadLength, if_pos hlen, reduceIte]
    rw [storeChunk, hinc]
    simp only [List.length_nil, Nat.zero_add, storeChunkFuel, hE]

/-- Witness for C10: a 2-byte chunk at the initial state raises the framing
error and leaves the state unchanged, while a complete 10-byte record leaves
an empty carryover with `expectedBytes = 0`. -/
theorem storeChunk_boundary_invariant_witness :
    storeChunk SpdzServerData.init [1, 0] =
      (SpdzServerData.init, some (framingErrorMsg 2)) ∧
    (storeChunk SpdzServerData.init [6, 0, 0, 0, 1, 2, 3, 4, 5, 6]).1.incompleteTransmission
      = [] := by
  constructor
  · exact storeChunk_boundary_invariant.2 SpdzServerData.init [1, 0] rfl rfl (by decide)
  · exact storeChunk_boundary_invariant.1 SpdzServerData.init [6, 0, 0, 0, 1, 2, 3, 4, 5, 6]
      (storeChunk SpdzServerData.init [6, 0, 0, 0, 1, 2, 3, 4, 5, 6]).1
      (by decide) (by decide)

/-- C1 counterexample: the valid stream encoding the single message `[170]`
is `[1, 0, 0, 0, 170]`; partitioning it into the nonempty chunks `[1, 0]` and
`[0, 0, 170]` cuts inside the length header, the reassembler raises instead of
buffering, and the resulting message sequence differs from the one obtained by
feeding the whole stream as a single chunk. -/
theorem storeChunk_partition_counterexample :
    [1, 0] ++ [0, 0, 170] = encodeStream [[170]] ∧
    (∀ c ∈ [[1, 0], [0, 0, 170]], c ≠ ([] : List Nat)) ∧
    (feedChunks SpdzServerData.init [[1, 0], [0, 0, 170]]).1.serverTransmission ≠
      (feedChunks SpdzServerData.init [encodeStream [[170]]]).1.serverTransmission := by
  decide

/-- Position classifier for a message stream: `notInHeaderB msgs p = true` iff
offset `p` into `encodeStream msgs` does not fall strictly inside one of the
4-byte length headers (it lies at a record boundary, inside a payload, or at
or past the end of the stream). -/
def notInHeaderB : List (List Nat) → Nat → Bool
  | [], _ => true
  | m :: ms, p =>
    if p = 0 then true
    else if p < 4 then false
    else if p < 4 + m.length then true
    else notInHeaderB ms (p - (4 + m.length))

/-- Every cumulative chunk boundary, measured from offset `start` of the
stream of `msgs`, avoids the interior of a length header. -/
def cutsB (msgs : List (List Nat)) : Nat → List (List Nat) → Bool
  | _, [] => true
  | start, c :: cs =>
    notInHeaderB msgs (start + c.length) && cutsB msgs (start + c.length) cs

/-- Relation tying a reassembler state to the stream it still has to see.
Either the state sits at a message boundary (offset displacement `d = 0`
within the current record list) and the unseen bytes are exactly the encoding
of the pending messages, or the state is `k` bytes into the payload of the
first pending message (displacement `d = 4 + k` past that record's start) and
the unseen bytes are the rest of that payload followed by the remaining
records. -/
def FitState (s : SpdzServerData) (pending : List (List Nat)) (d : Nat)
    (rest : List Nat) : Prop :=
  (d = 0 ∧ s.expectedBytes = 0 ∧ s.incompleteTransmission = [] ∧
    rest = encodeStream pending) ∨
  (∃ m ms k, pending = m :: ms ∧ d = 4 + k ∧ s.expectedBytes = m.length ∧
    k < m.length ∧ s.incompleteTransmission = m.take k ∧
    rest = m.drop k ++ encodeStream ms)

lemma encodeStream_nil : encodeStream [] = [] := rfl

lemma encodeStream_cons (m : List Nat) (ms : List (List Nat)) :
    encodeStream (m :: ms) = header4LE m.length ++ (m ++ encodeStream ms) := by
  simp only [encodeStream, List.map_cons, List.flatten_cons, encodeRecord, List.append_assoc]

lemma encodeStream_eq_nil (msgs : List (List Nat)) :
    encodeStream msgs = [] → msgs = [] := by
  cases msgs with
  | nil => intro; rfl
  | cons m ms =>
    intro h
    rw [encodeStream_cons] at h
    cases (List.append_eq_nil.mp h).1

lemma notInHeaderB_shift (m : List Nat) (ms : List (List Nat)) (y : Nat) :
    notInHeaderB (m :: ms) (4 + m.length + y) = notInHeaderB ms y := by
  rw [notInHeaderB]
  rw [if_neg (by omega), if_neg (by omega), if_neg (by omega)]
  congr 1
  omega

lemma notInHeaderB_end (msgs : List (List Nat)) :
    notInHeaderB msgs (encodeStream msgs).length = true := by
  induction msgs with
  | nil => rfl
  | cons m ms ih =>
    have hlen : (encodeStream (m :: ms)).length = 4 + m.length + (encodeStream ms).length := by
      rw [encodeStream_cons]
      simp only [List.length_append, header4LE_length]
      omega
    rw [hlen, notInHeaderB_shift]
    exact ih

/-- Splitting `c ++ r = a ++ b` when the cut falls at or after the end of
`a`. -/
lemma append_eq_split {α : Type} (c r a b : List α) (h : c ++ r = a ++ b)
    (hlen : a.length ≤ c.length) :
    c = a ++ c.drop a.length ∧ c.drop a.length ++ r = b := by
  have htake : c.take a.length = a := by
    have h1 : (c ++ r).take a.length = c.take a.length := by
      rw [List.take_append_eq_append_take, Nat.sub_eq_zero_of_le hlen, List.take_zero,
        List.append_nil]
    have h2 : (a ++ b).take a.length = a := List.take_left a b
    rw [← h1, h, h2]
  constructor
  · conv_lhs => rw [← List.take_append_drop a.length c]
    rw [htake]
  · have h1 : (c ++ r).drop a.length = c.drop a.length ++ r := by
      rw [List.drop_append_eq_append_drop, Nat.sub_eq_zero_of_le hlen, List.drop_zero]
    have h2 : (a ++ b).drop a.length = b := List.drop_left a b
    rw [← h1, h, h2]

/-- Splitting `c ++ r = a ++ b` when the cut falls at or before the end of
`a`. -/
lemma append_eq_split_le {α : Type} (c r a b : List α) (h : c ++ r = a ++ b)
    (hlen : c.length ≤ a.length) :
    c = a.take c.length ∧ r = a.drop c.length ++ b := by
  constructor
  · have h1 : (c ++ r).take c.length = c := by
      rw [List.take_append_eq_append_take, Nat.sub_self, List.take_zero, List.append_nil,
        List.take_length]
    have h2 : (a ++ b).take c.length = a.take c.length := by
      rw [List.take_append_eq_append_take, Nat.sub_eq_zero_of_le hlen, List.take_zero,
        List.append_nil]
    rw [← h2, ← h, h1]
  · have h1 : (c ++ r).drop c.length = r := by
      rw [List.drop_append_eq_append_drop, Nat.sub_self, List.drop_zero, List.drop_length,
        List.nil_append]
    have h2 : (a ++ b).drop c.length = a.drop c.length ++ b := by
      rw [List.drop_append_eq_append_drop, Nat.sub_eq_zero_of_le hlen, List.drop_zero]
    rw [← h1, h, h2]

lemma extract_at_boundary (n : Nat) (t : List Nat) (hn : n < 4294967296) :
    extractPayloadFromBuffer (header4LE n ++ t) 0 [] =
      Except.ok (t.take n, if (t.take n).length = n then 0 else n, t.drop n) := by
  have hlen : ¬ (header4LE n ++ t).length < 4 := by
    simp only [List.length_append, header4LE_length]
    omega
  have hdrop4 : (header4LE n ++ t).drop 4 = t := by
    have : (header4LE n).length = 4 := header4LE_length n
    rw [← this, List.drop_left]
  have hdropn : (header4LE n ++ t).drop (4 + n) = t.drop n := by
    rw [List.drop_append_eq_append_drop]
    have h1 : (header4LE n).drop (4 + n) = [] := by
      apply List.drop_eq_nil_of_le
      rw [header4LE_length]
      omega
    rw [h1, List.nil_append, header4LE_length]
    congr 1
    omega
  rw [extractPayloadFromBuffer]
  simp only [List.nil_append, if_pos rfl, calculatePayloadLength, if_neg hlen,
    readUInt32LE_header4LE n t hn, hdrop4, hdropn, reduceIte]

lemma extract_mid (chunk carry : List Nat) (expected : Nat) (hexp : expected ≠ 0) :
    extractPayloadFromBuffer chunk expected carry =
      Except.ok ((carry ++ chunk).take expected,
        if ((carry ++ chunk).take expected).length = expected then 0 else expected,
        (carry ++ chunk).drop expected) := by
  rw [extractPayloadFromBuffer, if_neg hexp]

lemma storeChunkFuel_run (fuel : Nat) :
    ∀ (chunk : List Nat) (s : SpdzServerData) (pending : List (List Nat)) (d : Nat)
      (rest2 : List Nat),
      s.incompleteTransmission.length + chunk.length < fuel →
      chunk ≠ [] →
      (∀ m ∈ pending, m.length < 4294967296) →
      FitState s pending d (chunk ++ rest2) →
      notInHeaderB pending (d + chunk.length) = true →
      ∃ (done pend2 : List (List Nat)) (d2 : Nat) (s2 : SpdzServerData),
        pending = done ++ pend2 ∧
        storeChunkFuel fuel s chunk = (s2, none) ∧
        s2.serverTransmission = s.serverTransmission ++ done ∧
        FitState s2 pend2 d2 rest2 ∧
        (∀ x, notInHeaderB pending (d + chunk.length + x) = true →
          notInHeaderB pend2 (d2 + x) = true) := by
  induction fuel with
  | zero =>
    intro chunk s pending d rest2 hfuel
    exact (Nat.not_lt_zero _ hfuel).elim
  | succ f ih =>
    intro chunk s pending d rest2 hfuel hne hwf hfit hcut
    have hlenpos : 0 < chunk.length := List.length_pos.mpr hne
    cases hfit with
    | inl hbd =>
      obtain ⟨hd0, hexp, hinc, hrest⟩ := hbd
      subst hd0
      cases pending with
      | nil =>
        rw [encodeStream_nil] at hrest
        exact absurd (List.append_eq_nil.mp hrest).1 hne
      | cons m ms =>
        have hm32 : m.length < 4294967296 := hwf m (List.mem_cons_self m ms)
        have h4 : 4 ≤ chunk.length := by
          by_contra hlt
          push_neg at hlt
          rw [Nat.zero_add, notInHeaderB, if_neg (by omega), if_pos (by omega)] at hcut
          exact Bool.false_ne_true hcut
        rw [encodeStream_cons] at hrest
        obtain ⟨t, hchunk, ht⟩ :
            ∃ t, chunk = header4LE m.length ++ t ∧ t ++ rest2 = m ++ encodeStream ms := by
          obtain ⟨h1, h2⟩ := append_eq_split chunk rest2 (header4LE m.length)
            (m ++ encodeStream ms) hrest (by rw [header4LE_length]; exact h4)
          exact ⟨_, h1, h2⟩
        have hclen : chunk.length = 4 + t.length := by
          rw [hchunk, List.length_append, header4LE_length]
        have hE : extractPayloadFromBuffer chunk s.expectedBytes s.incompleteTransmission
            = Except.ok (t.take m.length,
                if (t.take m.length).length = m.length then 0 else m.length,
                t.drop m.length) := by
          rw [hexp, hinc, hchunk]
          exact extract_at_boundary m.length t hm32
        rcases Nat.lt_or_ge t.length m.length with hTlt | hge
        · -- the record's payload continues past this chunk
          have hpay : t.take m.length = t := List.take_of_length_le (Nat.le_of_lt hTlt)
          have hcond : ¬ (t.length = m.length) := Nat.ne_of_lt hTlt
          rw [hpay, if_neg hcond] at hE
          have hm0 : ¬ (m.length = 0) := by omega
          obtain ⟨ht1, ht2⟩ := append_eq_split_le t rest2 m (encodeStream ms) ht
            (Nat.le_of_lt hTlt)
          refine ⟨[], m :: ms, 4 + t.length,
            { s with expectedBytes := m.length, incompleteTransmission := t },
            rfl, ?_, ?_, ?_, ?_⟩
          · simp only [storeChunkFuel, hE, if_neg hm0]
          · simp only [List.append_nil]
          · right
            exact ⟨m, ms, t.length, rfl, rfl, rfl, hTlt, ht1, ht2⟩
          · intro x hx
            rw [Nat.zero_add, hclen] at hx
            exact hx
        · -- the chunk completes the record
          obtain ⟨t2, ht1, ht2⟩ :
              ∃ t2, t = m ++ t2 ∧ t2 ++ rest2 = encodeStream ms := by
            obtain ⟨h1, h2⟩ := append_eq_split t rest2 m (encodeStream ms) ht hge
            exact ⟨_, h1, h2⟩
          have hpay : t.take m.length = m := by
            rw [ht1]; exact List.take_left m t2
          have hrem2 : t.drop m.length = t2 := by
            rw [ht1]; exact List.drop_left m t2
          have ht2len : t.length = m.length + t2.length := by
            rw [ht1, List.length_append]
          rw [hpay, hrem2] at hE
          simp only [eq_self_iff_true, if_true] at hE
          by_cases hrem : t2 = []
          · refine ⟨[m], ms, 0, ⟨s.serverTransmission ++ [m], 0, t2⟩, rfl, ?_, ?_, ?_, ?_⟩
            · simp only [storeChunkFuel, hE, reduceIte, if_pos hrem]
            · rfl
            · left
              refine ⟨rfl, rfl, hrem, ?_⟩
              rw [hrem] at ht2
              rw [← ht2, List.nil_append]
            · intro x hx
              have ht20 : t2.length = 0 := by rw [hrem]; rfl
              have he : 0 + chunk.length + x = 4 + m.length + x := by omega
              rw [he, notInHeaderB_shift] at hx
              rw [Nat.zero_add]
              exact hx
          · have hincl : s.incompleteTransmission.length = 0 := by rw [hinc]; rfl
            have hfuelrec : (([] : List Nat)).length + t2.length < f := by
              simp only [List.length_nil, Nat.zero_add]
              omega
            have hwfms : ∀ m2 ∈ ms, m2.length < 4294967296 :=
              fun m2 hm2 => hwf m2 (List.mem_cons_of_mem m hm2)
            have hfitrec : FitState ⟨s.serverTransmission ++ [m], 0, []⟩ ms 0 (t2 ++ rest2) :=
              Or.inl ⟨rfl, rfl, rfl, ht2⟩
            have hcutrec : notInHeaderB ms (0 + t2.length) = true := by
              have he : 0 + chunk.length = 4 + m.length + t2.length := by omega
              rw [he, notInHeaderB_shift] at hcut
              rw [Nat.zero_add]
              exact hcut
            obtain ⟨dr, pend2, d2, s2, hsplit, hrun, hserv, hfit2, htr⟩ :=
              ih t2 ⟨s.serverTransmission ++ [m], 0, []⟩ ms 0 rest2 hfuelrec hrem hwfms
                hfitrec hcutrec
            refine ⟨m :: dr, pend2, d2, s2, ?_, ?_, ?_, hfit2, ?_⟩
            · rw [List.cons_append, ← hsplit]
            · simp only [storeChunkFuel, hE, reduceIte, if_neg hrem]
              exact hrun
            · rw [hserv]
              simp only [List.append_assoc, List.singleton_append]
            · intro x hx
              have he : 0 + chunk.length + x = 4 + m.length + (t2.length + x) := by omega
              rw [he, notInHeaderB_shift] at hx
              exact htr x (by rw [Nat.zero_add]; exact hx)
    | inr hmid =>
      obtain ⟨m, ms, k, hpend, hd, hexp, hk, hinc, hrest⟩ := hmid
      subst hpend
      subst hd
      have hm0 : ¬ (m.length = 0) := by omega
      have hE : extractPayloadFromBuffer chunk s.expectedBytes s.incompleteTransmission
          = Except.ok ((m.take k ++ chunk).take m.length,
              if ((m.take k ++ chunk).take m.length).length = m.length then 0 else m.length,
              (m.take k ++ chunk).drop m.length) := by
        rw [hexp, hinc]
        exact extract_mid chunk (m.take k) m.length hm0
      have hkl : (m.take k).length = k := by
        rw [List.length_take]
        exact Nat.min_eq_left (Nat.le_of_lt hk)
      have hBlen : (m.take k ++ chunk).length = k + chunk.length := by
        rw [List.length_append, hkl]
      have hBfull : (m.take k ++ chunk) ++ rest2 = m ++ encodeStream ms := by
        rw [List.append_assoc, hrest, ← List.append_assoc, List.take_append_drop]
      rcases Nat.lt_or_ge (k + chunk.length) m.length with hlt | hge
      · -- payload still incomplete after this chunk
        have hpay : (m.take k ++ chunk).take m.length = m.take k ++ chunk :=
          List.take_of_length_le (by rw [hBlen]; exact Nat.le_of_lt hlt)
        have hcond : ¬ ((m.take k ++ chunk).length = m.length) := by
          rw [hBlen]; exact Nat.ne_of_lt hlt
        rw [hpay, if_neg hcond] at hE
        obtain ⟨hB1, hB2⟩ := append_eq_split_le (m.take k ++ chunk) rest2 m
          (encodeStream ms) hBfull (by rw [hBlen]; exact Nat.le_of_lt hlt)
        rw [hBlen] at hB1 hB2
        refine ⟨[], m :: ms, 4 + (k + chunk.length),
          { s with expectedBytes := m.length, incompleteTransmission := m.take k ++ chunk },
          rfl, ?_, ?_, ?_, ?_⟩
        · simp only [storeChunkFuel, hE, if_neg hm0]
        · simp only [List.append_nil]
        · right
          exact ⟨m, ms, k + chunk.length, rfl, rfl, rfl, hlt, hB1, hB2⟩
        · intro x hx
          have he : 4 + (k + chunk.length) + x = 4 + k + chunk.length + x := by omega
          rw [he]
          exact hx
      · -- the chunk completes the pending payload
        obtain ⟨t2, hB1, hB2⟩ :
            ∃ t2, m.take k ++ chunk = m ++ t2 ∧ t2 ++ rest2 = encodeStream ms := by
          obtain ⟨h1, h2⟩ := append_eq_split (m.take k ++ chunk) rest2 m (encodeStream ms)
            hBfull (by rw [hBlen]; exact hge)
          exact ⟨_, h1, h2⟩
        have hpay : (m.take k ++ chunk).take m.length = m := by
          rw [hB1]; exact List.take_left m t2
        have hrem2 : (m.take k ++ chunk).drop m.length = t2 := by
          rw [hB1]; exact List.drop_left m t2
        have ht2len : k + chunk.length = m.length + t2.length := by
          rw [← hBlen, hB1, List.length_append]
        rw [hpay, hrem2] at hE
        simp only [eq_self_iff_true, if_true] at hE
        by_cases hrem : t2 = []
        · refine ⟨[m], ms, 0, ⟨s.serverTransmission ++ [m], 0, t2⟩, rfl, ?_, ?_, ?_, ?_⟩
          · simp only [storeChunkFuel, hE, reduceIte, if_pos hrem]
          · rfl
          · left
            refine ⟨rfl, rfl, hrem, ?_⟩
            rw [hrem] at hB2
            rw [← hB2, List.nil_append]
          · intro x hx
            have ht20 : t2.length = 0 := by rw [hrem]; rfl
            have he : 4 + k + chunk.length + x = 4 + m.length + x := by omega
            rw [he, notInHeaderB_shift] at hx
            rw [Nat.zero_add]
            exact hx
        · have hincl : s.incompleteTransmission.length = k := by rw [hinc, hkl]
          have hf2 : k + chunk.length < f + 1 := by
            rw [hincl] at hfuel
            exact hfuel
          have hfuelrec : (([] : List Nat)).length + t2.length < f := by
            simp only [List.length_nil, Nat.zero_add]
            omega
          have hwfms : ∀ m2 ∈ ms, m2.length < 4294967296 :=
            fun m2 hm2 => hwf m2 (List.mem_cons_of_mem m hm2)
          have hfitrec : FitState ⟨s.serverTransmission ++ [m], 0, []⟩ ms 0 (t2 ++ rest2) :=
            Or.inl ⟨rfl, rfl, rfl, hB2⟩
          have hcutrec : notInHeaderB ms (0 + t2.length) = true := by
            have he : 4 + k + chunk.length = 4 + m.length + t2.length := by omega
            rw [he, notInHeaderB_shift] at hcut
            rw [Nat.zero_add]
            exact hcut
          obtain ⟨dr, pend2, d2, s2, hsplit, hrun, hserv, hfit2, htr⟩ :=
            ih t2 ⟨s.serverTransmission ++ [m], 0, []⟩ ms 0 rest2 hfuelrec hrem hwfms
              hfitrec hcutrec
          refine ⟨m :: dr, pend2, d2, s2, ?_, ?_, ?_, hfit2, ?_⟩
          · rw [List.cons_append, ← hsplit]
          · simp only [storeChunkFuel, hE, reduceIte, if_neg hrem]
            exact hrun
          · rw [hserv]
            simp only [List.append_assoc, List.singleton_append]
          · intro x hx
            have he : 4 + k + chunk.length + x = 4 + m.length + (t2.length + x) := by omega
            rw [he, notInHeaderB_shift] at hx
            exact htr x (by rw [Nat.zero_add]; exact hx)

lemma cutsB_mono (pending pend2 : List (List Nat)) :
    ∀ (cs : List (List Nat)) (b b2 : Nat),
      (∀ x, notInHeaderB pending (b + x) = true → notInHeaderB pend2 (b2 + x) = true) →
      cutsB pending b cs = true → cutsB pend2 b2 cs = true := by
  intro cs
  induction cs with
  | nil =>
    intro b b2 htr hc
    rfl
  | cons c cs ihc =>
    intro b b2 htr hc
    rw [cutsB, Bool.and_eq_true] at hc
    rw [cutsB, Bool.and_eq_true]
    refine ⟨htr c.length hc.1, ihc (b + c.length) (b2 + c.length) ?_ hc.2⟩
    intro x hx
    have h2 : b2 + c.length + x = b2 + (c.length + x) := by omega
    rw [h2]
    refine htr (c.length + x) ?_
    have h1 : b + c.length + x = b + (c.length + x) := by omega
    rw [← h1]
    exact hx

lemma feedChunks_run :
    ∀ (chunks : List (List Nat)) (s : SpdzServerData) (pending : List (List Nat)) (d : Nat),
      (∀ m ∈ pending, m.length < 4294967296) →
      (∀ c ∈ chunks, c ≠ []) →
      FitState s pending d chunks.flatten →
      cutsB pending d chunks = true →
      feedChunks s chunks = (⟨s.serverTransmission ++ pending, 0, []⟩, []) := by
  intro chunks
  induction chunks with
  | nil =>
    intro s pending d hwf hne hfit hcuts
    cases hfit with
    | inl hbd =>
      obtain ⟨hd0, hexp, hinc, hrest⟩ := hbd
      rw [List.flatten_nil] at hrest
      have hpend : pending = [] := encodeStream_eq_nil pending hrest.symm
      subst hpend
      rw [feedChunks]
      obtain ⟨q, eb, inc⟩ := s
      simp only at hexp hinc
      subst hexp
      subst hinc
      simp only [List.append_nil]
    | inr hmid =>
      obtain ⟨m, ms, k, hpend, hd, hexp, hk, hinc, hrest⟩ := hmid
      rw [List.flatten_nil] at hrest
      have hdk : m.drop k = [] := (List.append_eq_nil.mp hrest.symm).1
      have hdl : (m.drop k).length = 0 := by rw [hdk]; rfl
      rw [List.length_drop] at hdl
      omega
  | cons c cs ihc =>
    intro s pending d hwf hne hfit hcuts
    rw [cutsB, Bool.and_eq_true] at hcuts
    rw [List.flatten_cons] at hfit
    have hcne : c ≠ [] := hne c (List.mem_cons_self c cs)
    obtain ⟨done, pend2, d2, s2, hsplit, hrun, hserv, hfit2, htr⟩ :=
      storeChunkFuel_run (s.incompleteTransmission.length + c.length + 1) c s pending d
        cs.flatten (by omega) hcne hwf hfit hcuts.1
    have hstep : storeChunk s c = (s2, none) := hrun
    rw [feedChunks, hstep]
    dsimp only
    have hwf2 : ∀ m ∈ pend2, m.length < 4294967296 := by
      intro m hm
      refine hwf m ?_
      rw [hsplit]
      exact List.mem_append_right done hm
    have hne2 : ∀ c2 ∈ cs, c2 ≠ [] := fun c2 h => hne c2 (List.mem_cons_of_mem c h)
    have hcuts2 : cutsB pend2 d2 cs = true :=
      cutsB_mono pending pend2 cs (d + c.length) d2 htr hcuts.2
    rw [ihc s2 pend2 d2 hwf2 hne2 hfit2 hcuts2, hserv, hsplit]
    rw [List.append_assoc]

/-- C1 (amended): feeding the chunks of any partition of a valid
length-prefixed stream through `storeChunk` yields exactly the stream's
ordered message sequence — the same result as feeding the whole stream as a
single chunk — provided the partition's cut points never fall strictly inside
a 4-byte length header (`cutsB`).  A cut inside a header instead raises a
framing error and drops data (see the counterexample). -/
theorem storeChunk_partition_refinement (msgs chunks : List (List Nat))
    (hwf : ∀ m ∈ msgs, m.length < 4294967296)
    (hne : ∀ c ∈ chunks, c ≠ [])
    (hjoin : chunks.flatten = encodeStream msgs)
    (hcuts : cutsB msgs 0 chunks = true)
    (hmsgs : msgs ≠ []) :
    feedChunks SpdzServerData.init chunks = (⟨msgs, 0, []⟩, []) ∧
    feedChunks SpdzServerData.init chunks =
      feedChunks SpdzServerData.init [encodeStream msgs] := by
  have hfit : FitState SpdzServerData.init msgs 0 chunks.flatten :=
    Or.inl ⟨rfl, rfl, rfl, hjoin⟩
  have h1 := feedChunks_run chunks SpdzServerData.init msgs 0 hwf hne hfit hcuts
  have hstr : encodeStream msgs ≠ [] := fun h => hmsgs (encodeStream_eq_nil msgs h)
  have hne1 : ∀ c ∈ [encodeStream msgs], c ≠ [] := by
    intro c hc
    rw [List.mem_singleton] at hc
    rw [hc]
    exact hstr
  have hfl : ([encodeStream msgs] : List (List Nat)).flatten = encodeStream msgs := by
    rw [List.flatten_cons, List.flatten_nil, List.append_nil]
  have hfit1 : FitState SpdzServerData.init msgs 0 ([encodeStream msgs]).flatten :=
    Or.inl ⟨rfl, rfl, rfl, hfl⟩
  have hcuts1 : cutsB msgs 0 [encodeStream msgs] = true := by
    rw [cutsB, Bool.and_eq_true]
    refine ⟨?_, rfl⟩
    rw [Nat.zero_add]
    exact notInHeaderB_end msgs
  have h2 := feedChunks_run [encodeStream msgs] SpdzServerData.init msgs 0 hwf hne1
    hfit1 hcuts1
  refine ⟨?_, ?_⟩
  · rw [h1]
    rfl
  · rw [h1, h2]

/-- Witness for C1 (amended) at the spec's two-message scenario shape: a
6-byte message and a 2-byte message, each record delivered as one chunk. -/
theorem storeChunk_partition_refinement_witness :
    feedChunks SpdzServerData.init
        [[6, 0, 0, 0, 9, 9, 9, 9, 9, 9], [2, 0, 0, 0, 7, 8]] =
      (⟨[[9, 9, 9, 9, 9, 9], [7, 8]], 0, []⟩, []) ∧
    feedChunks SpdzServerData.init
        [[6, 0, 0, 0, 9, 9, 9, 9, 9, 9], [2, 0, 0, 0, 7, 8]] =
      feedChunks SpdzServerData.init [encodeStream [[9, 9, 9, 9, 9, 9], [7, 8]]] :=
  storeChunk_partition_refinement [[9, 9, 9, 9, 9, 9], [7, 8]]
    [[6, 0, 0, 0, 9, 9, 9, 9, 9, 9], [2, 0, 0, 0, 7, 8]]
    (by decide) (by decide) (by decide) (by decide) (by decide)

/-- The base64 alphabet, in value order. -/
def base64Chars : List Char :=
  ['A', 'B', 'C', 'D', 'E', 'F', 'G', 'H', 'I', 'J', 'K', 'L', 'M',
   'N', 'O', 'P', 'Q', 'R', 'S', 'T', 'U', 'V', 'W', 'X', 'Y', 'Z',
   'a', 'b', 'c', 'd', 'e', 'f', 'g', 'h', 'i', 'j', 'k', 'l', 'm',
   'n', 'o', 'p', 'q', 'r', 's', 't', 'u', 'v', 'w', 'x', 'y', 'z',
   '0', '1', '2', '3', '4', '5', '6', '7', '8', '9', '+', '/']

/-- Value of a base64 alphabet character; `none` for anything else (such as
the `=` padding, which Node's decoder ignores). -/
def b64ValOfChar (c : Char) : Option Nat :=
  let i := base64Chars.indexOf c
  if i < 64 then some i else none

/-- Regroup a list of 6-bit values into 8-bit bytes, most significant bits
first, as the base64 decoder does; a trailing single sextet carries fewer
than 8 bits and yields no byte. -/
def bitsToBytes : List Nat → List Nat
  | s0 :: s1 :: s2 :: s3 :: rest =>
    (s0 * 4 + s1 / 16) :: (s1 % 16 * 16 + s2 / 4) :: (s2 % 4 * 64 + s3)
      :: bitsToBytes rest
  | [s0, s1] => [s0 * 4 + s1 / 16]
  | [s0, s1, s2] => [s0 * 4 + s1 / 16, s1 % 16 * 16 + s2 / 4]
  | _ => []

/-- Model of Node `Buffer.from(s, 'base64')` on the inputs this codebase
feeds it: characters outside the base64 alphabet (including `=` padding) are
skipped and the remaining sextets are packed into bytes. -/
def b64decode (s : String) : List Nat :=
  bitsToBytes (s.data.filterMap b64ValOfChar)

def b64CharOfVal (n : Nat) : Char :=
  base64Chars.getD n 'A'

/-- Canonical base64 encoder (groups of three bytes to four characters, with
`=` padding), modelling Node `buf.toString('base64')`. -/
def b64encodeChars : List Nat → List Char
  | b0 :: b1 :: b2 :: rest =>
    b64CharOfVal (b0 / 4) :: b64CharOfVal (b0 % 4 * 16 + b1 / 16) ::
      b64CharOfVal (b1 % 16 * 4 + b2 / 64) :: b64CharOfVal (b2 % 64)
        :: b64encodeChars rest
  | [b0, b1] =>
    [b64CharOfVal (b0 / 4), b64CharOfVal (b0 % 4 * 16 + b1 / 16),
     b64CharOfVal (b1 % 16 * 4), '=']
  | [b0] => [b64CharOfVal (b0 / 4), b64CharOfVal (b0 % 4 * 16), '=', '=']
  | [] => []

def b64encode (l : List Nat) : String :=
  String.mk (b64encodeChars l)

lemma b64_val_char : ∀ n, n < 64 → b64ValOfChar (b64CharOfVal n) = some n := by decide

lemma b64_val_pad : b64ValOfChar ('=' : Char) = none := by decide

lemma b64decode_test : b64decode "4ug=" = [226, 232] := by decide

/-- Decoding inverts canonical encoding on byte lists. -/
theorem b64_roundtrip : ∀ (l : List Nat), (∀ b ∈ l, b < 256) →
    bitsToBytes ((b64encodeChars l).filterMap b64ValOfChar) = l
  | [], _ => rfl
  | [b0], hb => by
    have h0 : b0 < 256 := hb b0 (by simp)
    have e0 := b64_val_char (b0 / 4) (by omega)
    have e1 := b64_val_char (b0 % 4 * 16) (by omega)
    simp only [b64encodeChars, List.filterMap_cons, e0, e1, b64_val_pad,
      List.filterMap_nil, bitsToBytes]
    have g0 : b0 / 4 * 4 + b0 % 4 * 16 / 16 = b0 := by omega
    rw [g0]
  | [b0, b1], hb => by
    have h0 : b0 < 256 := hb b0 (by simp)
    have h1 : b1 < 256 := hb b1 (by simp)
    have e0 := b64_val_char (b0 / 4) (by omega)
    have e1 := b64_val_char (b0 % 4 * 16 + b1 / 16) (by omega)
    have e2 := b64_val_char (b1 % 16 * 4) (by omega)
    simp only [b64encodeChars, List.filterMap_cons, e0, e1, e2, b64_val_pad,
      List.filterMap_nil, bitsToBytes]
    have g0 : b0 / 4 * 4 + (b0 % 4 * 16 + b1 / 16) / 16 = b0 := by omega
    have g1 : (b0 % 4 * 16 + b1 / 16) % 16 * 16 + b1 % 16 * 4 / 4 = b1 := by omega
    rw [g0, g1]
  | b0 :: b1 :: b2 :: rest, hb => by
    have h0 : b0 < 256 := hb b0 (by simp)
    have h1 : b1 < 256 := hb b1 (by simp)
    have h2 : b2 < 256 := hb b2 (by simp)
    have ih := b64_roundtrip rest (fun b h => hb b (by simp [h]))
    have e0 := b64_val_char (b0 / 4) (by omega)
    have e1 := b64_val_char (b0 % 4 * 16 + b1 / 16) (by omega)
    have e2 := b64_val_char (b1 % 16 * 4 + b2 / 64) (by omega)
    have e3 := b64_val_char (b2 % 64) (by omega)
    simp only [b64encodeChars, List.filterMap_cons, e0, e1, e2, e3]
    rw [bitsToBytes, ih]
    have g0 : b0 / 4 * 4 + (b0 % 4 * 16 + b1 / 16) / 16 = b0 := by omega
    have g1 : (b0 % 4 * 16 + b1 / 16) % 16 * 16 + (b1 % 16 * 4 + b2 / 64) / 4 = b1 := by
      omega
    have g2 : (b1 % 16 * 4 + b2 / 64) % 4 * 64 + b2 % 64 = b2 := by omega
    rw [g0, g1, g2]

theorem b64decode_b64encode (l : List Nat) (hb : ∀ b ∈ l, b < 256) :
    b64decode (b64encode l) = l :=
  b64_roundtrip l hb

/-- Copying into an allocation right after a fixed prefix. -/
lemma bufCopy_aligned (pre src pad : List Nat) (hlen : src.length ≤ pad.length) :
    bufCopy (pre ++ pad) pre.length src = pre ++ (src ++ pad.drop src.length) := by
  rw [bufCopy, List.take_left]
  have h1 : (pre ++ pad).length - pre.length = pad.length := by
    rw [List.length_append]
    omega
  rw [h1, List.take_of_length_le hlen, Nat.min_eq_left hlen]
  have h3 : (pre ++ pad).drop (pre.length + src.length) = pad.drop src.length := by
    rw [List.drop_append_eq_append_drop]
    have h4 : pre.drop (pre.length + src.length) = [] :=
      List.drop_eq_nil_of_le (by omega)
    rw [h4, List.nil_append]
    congr 1
    omega
  rw [h3, List.append_assoc]

/-- Model of `base64ToSpdz` from `spdzDataConversion.js`: allocate a zeroed
buffer of `16 * count + 4` bytes, copy in the payload header, then for each
element copy its base64-decoded bytes, reversed, at offset `4 + 16 * index`
(`forEach` with index is modelled by a fold carrying the index).  Node's
`copy` writes past the element's 16-byte slot when the decoded value is
longer than 16 bytes and the slot is not the last one. -/
def base64ToSpdz (base64InputList : List String) : List Nat :=
  (base64InputList.foldl
    (fun acc base64Str =>
      (bufCopy acc.1 (4 + acc.2 * 16) (b64decode base64Str).reverse, acc.2 + 1))
    (bufCopy (List.replicate (base64InputList.length * 16 + 4) 0) 0
      (header4LE (base64InputList.length * 16)), 0)).1

/-- The 16-byte field the spec claims each element occupies: decoded bytes
reversed, truncated to 16 bytes, zero-padded to 16 bytes. -/
def spdzField (s : String) : List Nat :=
  (b64decode s).reverse.take 16 ++
    List.replicate (16 - (b64decode s).reverse.length) 0

/-- Output layout asserted by claim C2 for `encodeBigIntegers`: header then
one exact 16-byte field per element. -/
def base64ToSpdzClaimed (l : List String) : List Nat :=
  header4LE (l.length * 16) ++ (l.map spdzField).flatten

/-- C2 counterexample: an element whose base64 decodes to 18 bytes spills its
two excess bytes into the next element's field; with a following 1-byte
element the spilled byte survives, so the output differs from the claimed
truncate-and-pad layout. -/
theorem base64ToSpdz_claim_counterexample :
    base64ToSpdz ["////////////////////////", "AA=="] ≠
      base64ToSpdzClaimed ["////////////////////////", "AA=="] := by
  decide

lemma base64_fold_inv :
    ∀ (rest : List String) (pre : List Nat) (i : Nat),
      (∀ s ∈ rest, (b64decode s).length ≤ 16) →
      pre.length = 4 + i * 16 →
      (rest.foldl
        (fun acc base64Str =>
          (bufCopy acc.1 (4 + acc.2 * 16) (b64decode base64Str).reverse, acc.2 + 1))
        (pre ++ List.replicate (rest.length * 16) 0, i)).1
      = pre ++ (rest.map spdzField).flatten := by
  intro rest
  induction rest with
  | nil =>
    intro pre i hle hpre
    simp only [List.length_nil, Nat.zero_mul, List.replicate_zero, List.append_nil,
      List.foldl_nil, List.map_nil, List.flatten_nil]
  | cons s rest ihs =>
    intro pre i hle hpre
    rw [List.foldl_cons]
    dsimp only
    have hsl : (b64decode s).reverse.length ≤ 16 := by
      rw [List.length_reverse]
      exact hle s (List.mem_cons_self s rest)
    have hsplit : List.replicate ((s :: rest).length * 16) (0 : Nat)
        = List.replicate 16 0 ++ List.replicate (rest.length * 16) 0 := by
      rw [← List.replicate_add]
      congr 1
      simp only [List.length_cons]
      ring
    rw [hsplit]
    have hpos : 4 + i * 16 = pre.length := hpre.symm
    rw [hpos]
    have hpad : (b64decode s).reverse.length ≤
        (List.replicate 16 (0 : Nat) ++ List.replicate (rest.length * 16) 0).length := by
      rw [List.length_append, List.length_replicate, List.length_replicate]
      omega
    rw [bufCopy_aligned pre _ _ hpad]
    have hdrop : (List.replicate 16 (0 : Nat) ++ List.replicate (rest.length * 16) 0).drop
        (b64decode s).reverse.length
        = List.replicate (16 - (b64decode s).reverse.length) 0
            ++ List.replicate (rest.length * 16) 0 := by
      rw [List.drop_append_eq_append_drop, List.drop_replicate, List.length_replicate,
        show (b64decode s).reverse.length - 16 = 0 from by omega, List.drop_zero]
    rw [hdrop]
    have hfield : (b64decode s).reverse ++
        (List.replicate (16 - (b64decode s).reverse.length) 0
          ++ List.replicate (rest.length * 16) 0)
        = spdzField s ++ List.replicate (rest.length * 16) 0 := by
      rw [spdzField, List.take_of_length_le hsl, List.append_assoc]
    rw [hfield, ← List.append_assoc]
    have hle2 : ∀ s2 ∈ rest, (b64decode s2).length ≤ 16 :=
      fun s2 h => hle s2 (List.mem_cons_of_mem s h)
    have hpre2 : (pre ++ spdzField s).length = 4 + (i + 1) * 16 := by
      rw [List.length_append, spdzField, List.length_append, List.length_take,
        List.length_replicate]
      omega
    rw [ihs (pre ++ spdzField s) (i + 1) hle2 hpre2]
    rw [List.map_cons, List.flatten_cons, List.append_assoc]

/-- For inputs whose decoded values fit in 16 bytes the implementation
produces exactly the claimed layout. -/
lemma base64ToSpdz_layout (l : List String)
    (hle : ∀ s ∈ l, (b64decode s).length ≤ 16) :
    base64ToSpdz l = base64ToSpdzClaimed l := by
  rw [base64ToSpdz, base64ToSpdzClaimed]
  have hbuf0 : bufCopy (List.replicate (l.length * 16 + 4) 0) 0
      (header4LE (l.length * 16))
      = header4LE (l.length * 16) ++ List.replicate (l.length * 16) 0 := by
    have h := bufCopy_aligned [] (header4LE (l.length * 16))
      (List.replicate (l.length * 16 + 4) 0)
      (by rw [List.length_replicate, header4LE_length]; omega)
    simp only [List.nil_append, List.length_nil] at h
    rw [h, header4LE_length, List.drop_replicate]
    congr 2
  rw [hbuf0]
  exact base64_fold_inv l (header4LE (l.length * 16)) 0 hle
    (by rw [header4LE_length])

/-- C2 (amended): when every element's decoded value fits in 16 bytes, the
output of `base64ToSpdz` is the 4-byte little-endian header for `16 * count`
followed by exact 16-byte fields, each the element's decoded bytes reversed
and zero-padded; and encoding `['4ug=']` yields the specified 20-byte buffer.
An element whose decoded value exceeds 16 bytes is, however, only truncated
when it is the last element — otherwise its excess bytes overwrite the
following field's padding (see the counterexample). -/
theorem base64ToSpdz_spec (l : List String)
    (hle : ∀ s ∈ l, (b64decode s).length ≤ 16) :
    base64ToSpdz l = base64ToSpdzClaimed l ∧
    base64ToSpdz ["4ug="] =
      [16, 0, 0, 0, 232, 226, 0, 0, 0, 0, 0, 0, 0, 0, 0, 0, 0, 0, 0, 0] :=
  ⟨base64ToSpdz_layout l hle, by decide⟩

/-- Witness for C2 (amended) at the spec's own scenario input. -/
theorem base64ToSpdz_spec_witness :
    base64ToSpdz ["4ug="] = base64ToSpdzClaimed ["4ug="] ∧
    base64ToSpdz ["4ug="] =
      [16, 0, 0, 0, 232, 226, 0, 0, 0, 0, 0, 0, 0, 0, 0, 0, 0, 0, 0, 0] :=
  base64ToSpdz_spec ["4ug="] (by decide)

/-- Model of `binaryToBase64` from `spdzDataConversion.js`: reverse each
buffer's bytes and base64-encode it.  (The JavaScript reverses the caller's
buffers in place; only the returned strings matter here.) -/
def binaryToBase64 (binaryList : List (List Nat)) : List String :=
  binaryList.map (fun buf => b64encode buf.reverse)

/-- Split a byte list into consecutive 16-byte buffers (fuelled harness for
the round-trip claim; fuel bounded by the list length always suffices). -/
def chunk16 : Nat → List Nat → List (List Nat)
  | _, [] => []
  | 0, _ => []
  | f + 1, l => l.take 16 :: chunk16 f (l.drop 16)

def split16 (l : List Nat) : List (List Nat) :=
  chunk16 l.length l

lemma chunk16_succ (f : Nat) (l : List Nat) (hl : l ≠ []) :
    chunk16 (f + 1) l = l.take 16 :: chunk16 f (l.drop 16) := by
  cases l with
  | nil => exact absurd rfl hl
  | cons a l2 => rfl

lemma chunk16_flatten :
    ∀ (ls : List (List Nat)) (f : Nat),
      (∀ x ∈ ls, x.length = 16) → ls.flatten.length ≤ f →
      chunk16 f ls.flatten = ls := by
  intro ls
  induction ls with
  | nil =>
    intro f _ _
    rw [List.flatten_nil]
    cases f <;> rfl
  | cons x ls ihx =>
    intro f hlen hf
    have hx : x.length = 16 := hlen x (List.mem_cons_self x ls)
    rw [List.flatten_cons] at hf ⊢
    have hne : x ++ ls.flatten ≠ [] := by
      intro h
      have h2 := (List.append_eq_nil.mp h).1
      rw [h2] at hx
      simp at hx
    have hflen : (x ++ ls.flatten).length = 16 + ls.flatten.length := by
      rw [List.length_append, hx]
    cases f with
    | zero =>
      exfalso
      omega
    | succ f2 =>
      rw [chunk16_succ f2 _ hne, List.take_left' hx, List.drop_left' hx]
      congr 1
      apply ihx f2 (fun y hy => hlen y (List.mem_cons_of_mem x hy))
      omega

lemma split16_flatten (ls : List (List Nat)) (hlen : ∀ x ∈ ls, x.length = 16) :
    split16 ls.flatten = ls :=
  chunk16_flatten ls ls.flatten.length hlen (Nat.le_refl _)

/-- C5: for base64 strings that each canonically encode exactly 16 bytes,
splitting the `base64ToSpdz` output after its 4-byte header into consecutive
16-byte buffers and applying `binaryToBase64` (reverse each buffer, then
base64-encode) reproduces the original strings in order. -/
theorem decodeToBase64_roundtrip (l : List String)
    (hc : ∀ s ∈ l, ∃ bs : List Nat, bs.length = 16 ∧ (∀ b ∈ bs, b < 256) ∧
      s = b64encode bs) :
    binaryToBase64 (split16 ((base64ToSpdz l).drop 4)) = l := by
  have hd16 : ∀ s ∈ l, (b64decode s).length = 16 := by
    intro s hs
    obtain ⟨bs, hlen, hb, hs_eq⟩ := hc s hs
    rw [hs_eq, b64decode_b64encode bs hb, hlen]
  have hle : ∀ s ∈ l, (b64decode s).length ≤ 16 := fun s hs => (hd16 s hs).le
  rw [base64ToSpdz_layout l hle, base64ToSpdzClaimed,
    List.drop_left' (header4LE_length _)]
  have hfields : l.map spdzField = l.map (fun s => (b64decode s).reverse) := by
    refine List.map_congr_left ?_
    intro s hs
    rw [spdzField]
    have h16 : (b64decode s).reverse.length = 16 := by
      rw [List.length_reverse]
      exact hd16 s hs
    rw [List.take_of_length_le (by omega), h16]
    simp only [Nat.sub_self, List.replicate_zero, List.append_nil]
  rw [hfields]
  have hsplit : split16 ((l.map (fun s => (b64decode s).reverse)).flatten)
      = l.map (fun s => (b64decode s).reverse) := by
    apply split16_flatten
    intro x hx
    rw [List.mem_map] at hx
    obtain ⟨s, hs, rfl⟩ := hx
    rw [List.length_reverse]
    exact hd16 s hs
  rw [hsplit, binaryToBase64, List.map_map]
  have hid : ∀ s ∈ l,
      ((fun buf => b64encode buf.reverse) ∘ fun s => (b64decode s).reverse) s = id s := by
    intro s hs
    obtain ⟨bs, hlen, hb, hs_eq⟩ := hc s hs
    simp only [Function.comp_apply, List.reverse_reverse, id_eq]
    rw [hs_eq, b64decode_b64encode bs hb]
  rw [List.map_congr_left hid, List.map_id]

/-- Witness for C5 at the base64 encoding of sixteen zero bytes. -/
theorem decodeToBase64_roundtrip_witness :
    binaryToBase64 (split16 ((base64ToSpdz ["AAAAAAAAAAAAAAAAAAAAAA=="]).drop 4))
      = ["AAAAAAAAAAAAAAAAAAAAAA=="] :=
  decodeToBase64_roundtrip ["AAAAAAAAAAAAAAAAAAAAAA=="]
    (by
      intro s hs
      rw [List.mem_singleton] at hs
      subst hs
      exact ⟨List.replicate 16 0, by decide, by decide, by decide⟩)

/-- Value of one hex digit, as accepted by Node's hex decoder. -/
def hexVal (c : Char) : Option Nat :=
  if '0' ≤ c ∧ c ≤ '9' then some (c.toNat - '0'.toNat)
  else if 'a' ≤ c ∧ c ≤ 'f' then some (c.toNat - 'a'.toNat + 10)
  else if 'A' ≤ c ∧ c ≤ 'F' then some (c.toNat - 'A'.toNat + 10)
  else none

/-- Model of Node `Buffer.from(s, 'hex')`: parse consecutive digit pairs,
stopping (without error) at the first pair that is not two hex digits; a
trailing odd digit is dropped. -/
def hexPairs : List Char → List Nat
  | c0 :: c1 :: rest =>
    match hexVal c0, hexVal c1 with
    | some hi, some lo => (16 * hi + lo) :: hexPairs rest
    | _, _ => []
  | _ => []

/-- Message of the assertion raised by `hexPublicKeyToBuffer`. -/
def keyLengthErrorMsg (n : Nat) : String :=
  "Expect hex string to be length 64 representing 256 bit public key, given length "
    ++ toString n ++ "."

/-- Model of `hexPublicKeyToBuffer` from `spdzDataConversion.js`: assert the
string length is 64 (the only validation performed), then for each of the
eight 8-hex-character groups copy its decoded bytes, reversed, into a zeroed
32-byte payload at offset `4 * i`, and build the 36-byte result from the
4-byte header with value 32 followed by the payload.  (`value || []` makes a
falsy input behave as the empty array, which also fails the length
assertion.) -/
def hexPublicKeyToBuffer (value : String) : Except String (List Nat) :=
  if value.length = 64 then
    Except.ok
      (bufCopy (bufCopy (List.replicate 36 0) 0 (header4LE 32)) 4
        ((List.range 8).foldl
          (fun payloadBuf i =>
            bufCopy payloadBuf (i * 4)
              (hexPairs ((value.data.drop (i * 8)).take 8)).reverse)
          (List.replicate 32 0)))
  else
    Except.error (keyLengthErrorMsg value.length)

/-- C4 counterexample: a 64-character input none of whose characters is a hex
digit is not rejected — the assertion checks only the length — and yields the
header followed by 32 zero bytes. -/
theorem hexPublicKeyToBuffer_claim_counterexample :
    (∀ c ∈ ("zzzzzzzzzzzzzzzzzzzzzzzzzzzzzzzzzzzzzzzzzzzzzzzzzzzzzzzzzzzzzzzz" :
        String).data, hexVal c = none) ∧
    hexPublicKeyToBuffer
        "zzzzzzzzzzzzzzzzzzzzzzzzzzzzzzzzzzzzzzzzzzzzzzzzzzzzzzzzzzzzzzzz"
      = Except.ok (header4LE 32 ++ List.replicate 32 0) := by
  exact ⟨by decide, by rfl⟩

lemma hexPairs_le : ∀ cs : List Char, 2 * (hexPairs cs).length ≤ cs.length
  | [] => by simp [hexPairs]
  | [c] => by simp [hexPairs]
  | c0 :: c1 :: rest => by
    have ih := hexPairs_le rest
    cases e0 : hexVal c0 with
    | none =>
      simp only [hexPairs, e0, List.length_nil, List.length_cons]
      omega
    | some v0 =>
      cases e1 : hexVal c1 with
      | none =>
        simp only [hexPairs, e0, e1, List.length_nil, List.length_cons]
        omega
      | some v1 =>
        simp only [hexPairs, e0, e1, List.length_cons]
        omega

lemma hexPairs_length : ∀ (cs : List Char), (∀ c ∈ cs, hexVal c ≠ none) →
    2 * (hexPairs cs).length + cs.length % 2 = cs.length
  | [], _ => rfl
  | [c], _ => rfl
  | c0 :: c1 :: rest, hhex => by
    have h0 : hexVal c0 ≠ none := hhex c0 (by simp)
    have h1 : hexVal c1 ≠ none := hhex c1 (by simp)
    obtain ⟨v0, e0⟩ := Option.ne_none_iff_exists'.mp h0
    obtain ⟨v1, e1⟩ := Option.ne_none_iff_exists'.mp h1
    have ih := hexPairs_length rest (fun c h => hhex c (by simp [h]))
    simp only [hexPairs, e0, e1, List.length_cons]
    omega

lemma flatten_length_const (k : Nat) :
    ∀ (ls : List (List Nat)), (∀ x ∈ ls, x.length = k) →
      ls.flatten.length = ls.length * k := by
  intro ls
  induction ls with
  | nil =>
    intro
    simp
  | cons x ls ih =>
    intro h
    rw [List.flatten_cons, List.length_append, h x (List.mem_cons_self x ls),
      ih (fun y hy => h y (List.mem_cons_of_mem x hy)), List.length_cons]
    ring

/-- Filling a zeroed buffer with 4-byte-wide slots, one source per index. -/
lemma foldRange4_inv (g : Nat → List Nat) :
    ∀ (n j : Nat) (pre : List Nat),
      (∀ i, (g i).length ≤ 4) →
      pre.length = j * 4 →
      (List.range' j n).foldl (fun buf i => bufCopy buf (i * 4) (g i))
        (pre ++ List.replicate (n * 4) 0)
      = pre ++ ((List.range' j n).map
          (fun i => g i ++ List.replicate (4 - (g i).length) 0)).flatten := by
  intro n
  induction n with
  | zero =>
    intro j pre _ _
    simp only [List.range'_zero, List.foldl_nil, Nat.zero_mul, List.replicate_zero,
      List.append_nil, List.map_nil, List.flatten_nil]
  | succ n2 ihn =>
    intro j pre hg hpre
    rw [List.range'_succ, List.foldl_cons]
    have hsplit : List.replicate ((n2 + 1) * 4) (0 : Nat)
        = List.replicate 4 0 ++ List.replicate (n2 * 4) 0 := by
      rw [← List.replicate_add]
      congr 1
      ring
    rw [hsplit, hpre.symm]
    have hpad : (g j).length ≤
        (List.replicate 4 (0 : Nat) ++ List.replicate (n2 * 4) 0).length := by
      rw [List.length_append, List.length_replicate, List.length_replicate]
      have := hg j
      omega
    rw [bufCopy_aligned pre (g j) _ hpad]
    have hdrop : (List.replicate 4 (0 : Nat) ++ List.replicate (n2 * 4) 0).drop
        (g j).length
        = List.replicate (4 - (g j).length) 0 ++ List.replicate (n2 * 4) 0 := by
      rw [List.drop_append_eq_append_drop, List.drop_replicate, List.length_replicate,
        show (g j).length - 4 = 0 from by have := hg j; omega, List.drop_zero]
    rw [hdrop, show (g j) ++ (List.replicate (4 - (g j).length) 0
        ++ List.replicate (n2 * 4) 0)
      = ((g j) ++ List.replicate (4 - (g j).length) 0) ++ List.replicate (n2 * 4) 0
      from (List.append_assoc _ _ _).symm, ← List.append_assoc]
    have hpre2 : (pre ++ ((g j) ++ List.replicate (4 - (g j).length) 0)).length
        = (j + 1) * 4 := by
      rw [List.length_append, List.length_append, List.length_replicate]
      have := hg j
      omega
    rw [ihn (j + 1) (pre ++ ((g j) ++ List.replicate (4 - (g j).length) 0)) hg hpre2]
    rw [List.map_cons, List.flatten_cons, List.append_assoc]

/-- C4 (amended): `hexPublicKeyToBuffer` fails with the validation error if
and only if the input string's length differs from 64 — the characters are
not themselves validated, so a 64-character non-hex input succeeds, its
undecodable pairs left as zero bytes (see the counterexample).  For every
64-character input the result is the 4-byte little-endian header with value
32 followed by eight 4-byte groups, group `i` holding the bytes decoded from
hex characters `8i..8i+7` in reversed order (zero-padded if fewer than 4
bytes decode); for a 64-hex-character input each group is exactly its four
decoded bytes reversed — reversed group by group, not the whole buffer. -/
theorem hexPublicKeyToBuffer_spec (value : String) :
    ((∃ e, hexPublicKeyToBuffer value = Except.error e) ↔ value.length ≠ 64) ∧
    (value.length = 64 →
      hexPublicKeyToBuffer value = Except.ok (header4LE 32 ++
        ((List.range 8).map (fun i =>
          (hexPairs ((value.data.drop (i * 8)).take 8)).reverse
            ++ List.replicate
                (4 - (hexPairs ((value.data.drop (i * 8)).take 8)).reverse.length)
                0)).flatten)) ∧
    ((value.length = 64 ∧ ∀ c ∈ value.data, hexVal c ≠ none) →
      hexPublicKeyToBuffer value = Except.ok (header4LE 32 ++
        ((List.range 8).map (fun i =>
          (hexPairs ((value.data.drop (i * 8)).take 8)).reverse)).flatten)) := by
  have hg : ∀ i, ((hexPairs ((value.data.drop (i * 8)).take 8)).reverse).length ≤ 4 := by
    intro i
    rw [List.length_reverse]
    have h1 := hexPairs_le ((value.data.drop (i * 8)).take 8)
    have h2 : ((value.data.drop (i * 8)).take 8).length ≤ 8 := by
      rw [List.length_take]
      omega
    omega
  have hmain : value.length = 64 →
      hexPublicKeyToBuffer value = Except.ok (header4LE 32 ++
        ((List.range 8).map (fun i =>
          (hexPairs ((value.data.drop (i * 8)).take 8)).reverse
            ++ List.replicate
                (4 - (hexPairs ((value.data.drop (i * 8)).take 8)).reverse.length)
                0)).flatten) := by
    intro hlen
    have hfold := foldRange4_inv
      (fun i => (hexPairs ((value.data.drop (i * 8)).take 8)).reverse) 8 0 [] hg rfl
    rw [← List.range_eq_range'] at hfold
    simp only [List.nil_append] at hfold
    rw [show ((8 : Nat) * 4) = 32 from rfl] at hfold
    rw [hexPublicKeyToBuffer, if_pos hlen, hfold]
    have hhdr : bufCopy (List.replicate 36 (0 : Nat)) 0 (header4LE 32)
        = header4LE 32 ++ List.replicate 32 0 := by
      have h := bufCopy_aligned [] (header4LE 32) (List.replicate 36 0)
        (by rw [List.length_replicate, header4LE_length]; omega)
      simp only [List.nil_append, List.length_nil] at h
      rw [h, header4LE_length, List.drop_replicate]
    rw [hhdr]
    have hplen : (((List.range 8).map (fun i =>
        (hexPairs ((value.data.drop (i * 8)).take 8)).reverse
          ++ List.replicate
              (4 - (hexPairs ((value.data.drop (i * 8)).take 8)).reverse.length)
              0)).flatten).length = 32 := by
      rw [flatten_length_const 4]
      · rw [List.length_map, List.length_range]
      · intro x hx
        rw [List.mem_map] at hx
        obtain ⟨i, hi, rfl⟩ := hx
        rw [List.length_append, List.length_replicate]
        have := hg i
        omega
    have houter := bufCopy_aligned (header4LE 32)
      (((List.range 8).map (fun i =>
        (hexPairs ((value.data.drop (i * 8)).take 8)).reverse
          ++ List.replicate
              (4 - (hexPairs ((value.data.drop (i * 8)).take 8)).reverse.length)
              0)).flatten)
      (List.replicate 32 0)
      (by rw [List.length_replicate]; omega)
    rw [header4LE_length] at houter
    rw [houter, hplen, List.drop_replicate, show (32 : Nat) - 32 = 0 from rfl,
      List.replicate_zero, List.append_nil]
  refine ⟨⟨?_, ?_⟩, hmain, ?_⟩
  · rintro ⟨e, he⟩ hlen
    rw [hexPublicKeyToBuffer, if_pos hlen] at he
    cases he
  · intro hne
    refine ⟨keyLengthErrorMsg value.length, ?_⟩
    rw [hexPublicKeyToBuffer, if_neg hne]
  · rintro ⟨hlen, hhex⟩
    rw [hmain hlen]
    congr 1
    congr 1
    congr 1
    refine List.map_congr_left ?_
    intro i hi
    rw [List.mem_range] at hi
    have hslice : ((value.data.drop (i * 8)).take 8).length = 8 := by
      rw [List.length_take, List.length_drop]
      have hdl : value.data.length = 64 := hlen
      omega
    have hall : ∀ c ∈ (value.data.drop (i * 8)).take 8, hexVal c ≠ none :=
      fun c hc => hhex c (List.mem_of_mem_drop (List.mem_of_mem_take hc))
    have hlen4 := hexPairs_length _ hall
    rw [hslice] at hlen4
    have hfour : (hexPairs ((value.data.drop (i * 8)).take 8)).length = 4 := by omega
    rw [List.length_reverse, hfour]
    simp

/-- Witness for C4 (amended) at the repository test's example key (all hex)
and a short input. -/
theorem hexPublicKeyToBuffer_spec_witness :
    hexPublicKeyToBuffer
        "100000023000000450000006700000089000000ab000000cd000000ef0000000"
      = Except.ok (header4LE 32 ++
        ((List.range 8).map (fun i =>
          (hexPairs
            ((("100000023000000450000006700000089000000ab000000cd000000ef0000000" :
              String).data.drop (i * 8)).take 8)).reverse)).flatten) ∧
    (∃ e, hexPublicKeyToBuffer "abc" = Except.error e) := by
  constructor
  · exact (hexPublicKeyToBuffer_spec _).2.2 ⟨by decide, by decide⟩
  · exact (hexPublicKeyToBuffer_spec "abc").1.mpr (by decide)

/-- Model of `int32ToSpdz`: a 4-byte little-endian header for `4 * count`
followed by each 32-bit integer written little-endian (two's complement;
Node's `writeInt32LE` is defined for values in the `Int32` range). -/
def int32ToSpdz (int32List : List Int) : List Nat :=
  header4LE (int32List.length * 4) ++
    (int32List.map (fun v => header4LE (v % 4294967296).toNat)).flatten

/-- Model of one Node socket as held by `spdzSockets.js`: an identifying
handle, the data handed to `write` so far, and the boolean the next `write`
call returns.  Node's `Socket#write` yields `true` iff the bytes were
flushed to the kernel immediately; under backpressure it returns `false`
while still queueing the data — a property of the socket's state, not of the
proxy. -/
structure SocketModel where
  handle : Nat
  writeReturn : Bool
  written : List (List Nat)
deriving DecidableEq

/-- Module-level state shared by `spdzSockets.js` and
`spdz_interface/index.js`: the connection map, the buffered-data map, and
bookkeeping recording destroyed socket handles and the next fresh handle
(modelling the identity of each `new net.Socket()`). -/
structure ProxyWorld where
  spdzConnections : String → Option SocketModel
  spdzBufferedData : String → Option SpdzServerData
  destroyedHandles : List Nat
  nextHandle : Nat

/-- Model of `spdzSockets.checkConnection`. -/
def checkConnection (w : ProxyWorld) (clientId : String) : Bool :=
  (w.spdzConnections clientId).isSome

/-- Model of `spdzSockets.sendData`: `false` when no connection is held for
the id; otherwise the data is handed to `socket.write` and the write's own
boolean result is returned.  The updated world records the write. -/
def sendData (w : ProxyWorld) (clientId : String) (data : List Nat) :
    ProxyWorld × Bool :=
  match w.spdzConnections clientId with
  | none => (w, false)
  | some sock =>
    ({ w with spdzConnections := fun id =>
        if id = clientId then some { sock with written := sock.written ++ [data] }
        else w.spdzConnections id },
      sock.writeReturn)

/-- Model of `spdzSockets.closeConnection`: destroy the socket when one is
held (recording its handle as destroyed); the socket's `close` event, which
removes the map entry, is elaborated in program order.  Returns whether a
connection existed. -/
def closeConnection (w : ProxyWorld) (clientId : String) : ProxyWorld × Bool :=
  match w.spdzConnections clientId with
  | none => (w, false)
  | some sock =>
    ({ w with
        spdzConnections := fun id =>
          if id = clientId then none else w.spdzConnections id,
        destroyedHandles := w.destroyedHandles ++ [sock.handle] }, true)

/-- Model of `closeConnectionByClient` in `spdz_interface/index.js`: close
the socket, then delete the buffered data whether empty or not. -/
def closeConnectionByClient (w : ProxyWorld) (clientId : String) :
    ProxyWorld × Bool :=
  ((let r := closeConnection w clientId
    { r.1 with spdzBufferedData := fun id =>
        if id = clientId then none else r.1.spdzBufferedData id }),
   (closeConnection w clientId).2)

/-- Model of the connect continuation of `setupConnection` (the promise
`.then` callback): register the fresh socket, install a fresh
`SpdzServerData` buffer and resolve with the client id; a failed connect
(`connectOk = false`) rejects with no registration. -/
def connectRegister (w1 : ProxyWorld) (clientId : String) (connectOk : Bool) :
    ProxyWorld × Option String :=
  if connectOk then
    ({ spdzConnections := fun id =>
        if id = clientId then
          some { handle := w1.nextHandle, writeReturn := true, written := [] }
        else w1.spdzConnections id,
       spdzBufferedData := fun id =>
        if id = clientId then some SpdzServerData.init else w1.spdzBufferedData id,
       destroyedHandles := w1.destroyedHandles,
       nextHandle := w1.nextHandle + 1 },
     some clientId)
  else (w1, none)

/-- Model of `setupConnection` in `spdz_interface/index.js` for an explicitly
supplied client id: when a live connection exists for the id it is torn down
first (socket destroyed, buffered data discarded), then the new connection is
attempted; the asynchronous socket events are elaborated in program order.
The optional public-key write is omitted (it does not touch the registry). -/
def setupConnection (w : ProxyWorld) (clientId : String) (connectOk : Bool) :
    ProxyWorld × Option String :=
  connectRegister
    (if checkConnection w clientId then (closeConnectionByClient w clientId).1 else w)
    clientId connectOk

/-- Model of `SpdzServerData.popServerTransmission`: remove and return the
oldest queued message, or `null` when the queue is empty. -/
def popServerTransmission (s : SpdzServerData) :
    Option (List Nat) × SpdzServerData :=
  match s.serverTransmission with
  | [] => (none, s)
  | m :: rest => (some m, { s with serverTransmission := rest })

/-- Message of the lookup error raised by `getServerTransmission`. -/
def noConnectionErrorMsg (clientId : String) : String :=
  "Unable to get data for client " ++ clientId
    ++ ", there is no SPDZ socket connection."

/-- Model of `getServerTransmission` in `spdz_interface/index.js`: a lookup
error when the id has no buffered-data entry, otherwise a pop from its
queue. -/
def getServerTransmission (w : ProxyWorld) (clientId : String) :
    Except String (Option (List Nat) × SpdzServerData) :=
  match w.spdzBufferedData clientId with
  | none => Except.error (noConnectionErrorMsg clientId)
  | some d => Except.ok (popServerTransmission d)

/-- Model of `sendBigIntegers`: encode with the codec, write via `sendData`. -/
def sendBigIntegers (w : ProxyWorld) (clientId : String)
    (base64InputList : List String) : ProxyWorld × Bool :=
  sendData w clientId (base64ToSpdz base64InputList)

/-- Model of `sendIntegers`: encode with the codec, write via `sendData`. -/
def sendIntegers (w : ProxyWorld) (clientId : String)
    (integerList : List Int) : ProxyWorld × Bool :=
  sendData w clientId (int32ToSpdz integerList)

/-- C6: `getServerTransmission` raises the lookup error exactly for session
ids with no buffered-data entry (including ids never set up); with an entry
whose queue is empty it returns null without raising; with a non-empty queue
it removes and returns the oldest message, leaving the rest in order. -/
theorem getServerTransmission_spec (w : ProxyWorld) (clientId : String) :
    (w.spdzBufferedData clientId = none →
      getServerTransmission w clientId
        = Except.error (noConnectionErrorMsg clientId)) ∧
    ((∃ e, getServerTransmission w clientId = Except.error e) →
      w.spdzBufferedData clientId = none) ∧
    (∀ d, w.spdzBufferedData clientId = some d → d.serverTransmission = [] →
      getServerTransmission w clientId = Except.ok (none, d)) ∧
    (∀ d m rest, w.spdzBufferedData clientId = some d →
      d.serverTransmission = m :: rest →
      getServerTransmission w clientId
        = Except.ok (some m, { d with serverTransmission := rest })) := by
  refine ⟨fun hn => ?_, fun he => ?_, fun d hd he => ?_, fun d m rest hd he => ?_⟩
  · rw [getServerTransmission, hn]
  · obtain ⟨e, hee⟩ := he
    cases hb : w.spdzBufferedData clientId with
    | none => rfl
    | some d =>
      rw [getServerTransmission, hb] at hee
      cases hee
  · rw [getServerTransmission, hd]
    have hp : popServerTransmission d = (none, d) := by
      rw [popServerTransmission.eq_def, he]
    dsimp only
    rw [hp]
  · rw [getServerTransmission, hd]
    have hp : popServerTransmission d
        = (some m, { d with serverTransmission := rest }) := by
      rw [popServerTransmission.eq_def, he]
    dsimp only
    rw [hp]

/-- Witness for C6 on a concrete registry: a session with two queued
messages pops the oldest, a session with an empty queue yields null, and an
unknown id raises the lookup error. -/
theorem getServerTransmission_spec_witness :
    getServerTransmission
        { spdzConnections := fun _ => none,
          spdzBufferedData := fun id =>
            if id = "a" then some ⟨[[1], [2]], 0, []⟩
            else if id = "b" then some ⟨[], 0, []⟩
            else none,
          destroyedHandles := [], nextHandle := 0 } "a"
      = Except.ok (some [1], ⟨[[2]], 0, []⟩) ∧
    getServerTransmission
        { spdzConnections := fun _ => none,
          spdzBufferedData := fun id =>
            if id = "a" then some ⟨[[1], [2]], 0, []⟩
            else if id = "b" then some ⟨[], 0, []⟩
            else none,
          destroyedHandles := [], nextHandle := 0 } "b"
      = Except.ok (none, ⟨[], 0, []⟩) ∧
    getServerTransmission
        { spdzConnections := fun _ => none,
          spdzBufferedData := fun id =>
            if id = "a" then some ⟨[[1], [2]], 0, []⟩
            else if id = "b" then some ⟨[], 0, []⟩
            else none,
          destroyedHandles := [], nextHandle := 0 } "c"
      = Except.error (noConnectionErrorMsg "c") := by
  refine ⟨?_, ?_, ?_⟩
  · exact (getServerTransmission_spec _ "a").2.2.2 ⟨[[1], [2]], 0, []⟩ [1] [[2]]
      (by rfl) rfl
  · exact (getServerTransmission_spec _ "b").2.2.1 ⟨[], 0, []⟩ (by rfl) rfl
  · exact (getServerTransmission_spec _ "c").1 (by rfl)

/-- C7 counterexample: with a live connection whose transport `write`
returns `false` (bytes queued under backpressure rather than flushed),
`sendBigIntegers` returns `false` even though a live connection exists and
the write was issued against it — so `true` is not returned whenever a live
connection exists. -/
theorem sendBigIntegers_claim_counterexample :
    checkConnection
        { spdzConnections := fun id =>
            if id = "a" then some { handle := 0, writeReturn := false, written := [] }
            else none,
          spdzBufferedData := fun _ => none,
          destroyedHandles := [], nextHandle := 1 } "a" = true ∧
    (sendBigIntegers
        { spdzConnections := fun id =>
            if id = "a" then some { handle := 0, writeReturn := false, written := [] }
            else none,
          spdzBufferedData := fun _ => none,
          destroyedHandles := [], nextHandle := 1 } "a" ["4ug="]).2 = false := by
  exact ⟨rfl, rfl⟩

/-- C7 (amended): `sendBigIntegers` and `sendIntegers` return `false` when no
live connection is registered for the session id; when a live connection
exists the encoded bytes are written to it (the write is recorded on the
socket) and the call returns that write's immediate-flush boolean — which
the transport may set to `false` even though the write was issued — so the
result never indicates delivery, and `true` occurs exactly when a live
connection exists and its write flushed immediately. -/
theorem sendData_spec (w : ProxyWorld) (clientId : String) :
    (∀ data, w.spdzConnections clientId = none →
      sendData w clientId data = (w, false)) ∧
    (∀ data sock, w.spdzConnections clientId = some sock →
      (sendData w clientId data).2 = sock.writeReturn ∧
      (sendData w clientId data).1.spdzConnections clientId
        = some { sock with written := sock.written ++ [data] }) ∧
    (∀ base64InputList, sendBigIntegers w clientId base64InputList
      = sendData w clientId (base64ToSpdz base64InputList)) ∧
    (∀ integerList, sendIntegers w clientId integerList
      = sendData w clientId (int32ToSpdz integerList)) := by
  refine ⟨fun data hn => ?_, fun data sock hs => ⟨?_, ?_⟩, fun l => rfl, fun l => rfl⟩
  · rw [sendData.eq_def, hn]
  · rw [sendData.eq_def, hs]
  · rw [sendData.eq_def, hs]
    dsimp only
    rw [if_pos rfl]

/-- Witness for C7 (amended): a world with one live connection for "a" whose
write flushes, and no connection for "b". -/
theorem sendData_spec_witness :
    sendData
        { spdzConnections := fun _ => none,
          spdzBufferedData := fun _ => none,
          destroyedHandles := [], nextHandle := 0 } "b" [1, 2]
      = ({ spdzConnections := fun _ => none,
           spdzBufferedData := fun _ => none,
           destroyedHandles := [], nextHandle := 0 }, false) ∧
    (sendData
        { spdzConnections := fun id =>
            if id = "a" then some { handle := 0, writeReturn := true, written := [] }
            else none,
          spdzBufferedData := fun _ => none,
          destroyedHandles := [], nextHandle := 1 } "a" [1, 2]).2 = true := by
  constructor
  · exact (sendData_spec _ "b").1 [1, 2] rfl
  · exact ((sendData_spec _ "a").2.1 [1, 2]
      { handle := 0, writeReturn := true, written := [] } (by rfl)).1

lemma closeByClient_fields (w : ProxyWorld) (clientId : String) (sock : SocketModel)
    (hs : w.spdzConnections clientId = some sock) :
    (closeConnectionByClient w clientId).1.nextHandle = w.nextHandle ∧
    (closeConnectionByClient w clientId).1.destroyedHandles
      = w.destroyedHandles ++ [sock.handle] ∧
    (closeConnectionByClient w clientId).2 = true := by
  rw [closeConnectionByClient]
  rw [closeConnection.eq_def, hs]
  exact ⟨rfl, rfl, rfl⟩

lemma setup_registers (w : ProxyWorld) (clientId : String) :
    ∃ h, (setupConnection w clientId true).1.spdzConnections clientId
        = some { handle := h, writeReturn := true, written := [] } ∧
      (setupConnection w clientId true).1.nextHandle = h + 1 ∧
      (setupConnection w clientId true).1.spdzBufferedData clientId
        = some SpdzServerData.init ∧
      (setupConnection w clientId true).2 = some clientId := by
  refine ⟨(if checkConnection w clientId
      then (closeConnectionByClient w clientId).1 else w).nextHandle, ?_, ?_, ?_, ?_⟩ <;>
    simp only [setupConnection, connectRegister, if_pos rfl, reduceIte]

lemma setup_over_existing (w : ProxyWorld) (clientId : String) (sock : SocketModel)
    (hs : w.spdzConnections clientId = some sock) :
    (setupConnection w clientId true).1.spdzConnections clientId
      = some { handle := w.nextHandle, writeReturn := true, written := [] } ∧
    (setupConnection w clientId true).1.spdzBufferedData clientId
      = some SpdzServerData.init ∧
    sock.handle ∈ (setupConnection w clientId true).1.destroyedHandles ∧
    (setupConnection w clientId true).1.nextHandle = w.nextHandle + 1 := by
  have hc : checkConnection w clientId = true := by
    rw [checkConnection, hs]
    rfl
  obtain ⟨hnext, hdest, _⟩ := closeByClient_fields w clientId sock hs
  refine ⟨?_, ?_, ?_, ?_⟩
  · rw [setupConnection, hc]
    simp only [connectRegister, reduceIte, if_pos rfl]
    rw [hnext]
  · rw [setupConnection, hc]
    simp only [connectRegister, reduceIte, if_pos rfl]
  · rw [setupConnection, hc]
    simp only [connectRegister, reduceIte, if_pos rfl]
    rw [hdest]
    exact List.mem_append_right _ (by rw [List.mem_singleton])
  · rw [setupConnection, hc]
    simp only [connectRegister, reduceIte, if_pos rfl]
    rw [hnext]

/-- C8: calling `setupConnection` twice with the same session id and no
intervening close leaves exactly the second connection registered for the
id (the registry is a map, so there is never more than one connection per id
at any instant); the first connection's socket has been destroyed and its
buffered data replaced by a fresh empty buffer, the teardown having run
before the new connection was registered. -/
theorem setupConnection_takeover (w : ProxyWorld) (clientId : String) :
    ∃ sock1 sock2 : SocketModel,
      (setupConnection w clientId true).1.spdzConnections clientId = some sock1 ∧
      (setupConnection (setupConnection w clientId true).1 clientId
          true).1.spdzConnections clientId = some sock2 ∧
      sock2.handle ≠ sock1.handle ∧
      sock1.handle ∈ (setupConnection (setupConnection w clientId true).1 clientId
          true).1.destroyedHandles ∧
      (setupConnection (setupConnection w clientId true).1 clientId
          true).1.spdzBufferedData clientId = some SpdzServerData.init := by
  obtain ⟨h1, hconn1, hnext1, hbuf1, hres1⟩ := setup_registers w clientId
  obtain ⟨hconn2, hbuf2, hdest2, hnext2⟩ :=
    setup_over_existing (setupConnection w clientId true).1 clientId _ hconn1
  refine ⟨{ handle := h1, writeReturn := true, written := [] },
    { handle := (setupConnection w clientId true).1.nextHandle,
      writeReturn := true, written := [] },
    hconn1, hconn2, ?_, hdest2, hbuf2⟩
  rw [hnext1]
  intro hcontra
  simp only at hcontra
  omega

/-- Witness for C8 on a concrete empty starting world. -/
theorem setupConnection_takeover_witness :
    ∃ sock1 sock2 : SocketModel,
      (setupConnection
          { spdzConnections := fun _ => none, spdzBufferedData := fun _ => none,
            destroyedHandles := [], nextHandle := 0 } "a" true).1.spdzConnections "a"
        = some sock1 ∧
      (setupConnection (setupConnection
          { spdzConnections := fun _ => none, spdzBufferedData := fun _ => none,
            destroyedHandles := [], nextHandle := 0 } "a" true).1 "a"
          true).1.spdzConnections "a" = some sock2 ∧
      sock2.handle ≠ sock1.handle ∧
      sock1.handle ∈ (setupConnection (setupConnection
          { spdzConnections := fun _ => none, spdzBufferedData := fun _ => none,
            destroyedHandles := [], nextHandle := 0 } "a" true).1 "a"
          true).1.destroyedHandles ∧
      (setupConnection (setupConnection
          { spdzConnections := fun _ => none, spdzBufferedData := fun _ => none,
            destroyedHandles := [], nextHandle := 0 } "a" true).1 "a"
          true).1.spdzBufferedData "a" = some SpdzServerData.init :=
  setupConnection_takeover
    { spdzConnections := fun _ => none, spdzBufferedData := fun _ => none,
      destroyedHandles := [], nextHandle := 0 } "a"

/-- Characters allowed by the bootstrap validator's pattern
`^[a-zA-Z0-9_]*$`. -/
def isProgramNameChar (c : Char) : Bool :=
  decide (('a' ≤ c ∧ c ≤ 'z') ∨ ('A' ≤ c ∧ c ≤ 'Z') ∨ ('0' ≤ c ∧ c ≤ '9') ∨ c = '_')

/-- The program-name validation performed by `runSPDZFunction` before any
process is spawned: a string of 1 to 19 characters (`length > 0 &&
length < 20`), all of them ASCII letters, digits or underscore. -/
def validSpdzProgramName (spdzProgram : String) : Bool :=
  decide (0 < spdzProgram.length) && decide (spdzProgram.length < 20) &&
    spdzProgram.data.all isProgramNameChar

/-- Trace of one `runSPDZFunction` call: the scripts invoked, in order and
with their arguments, and the final promise outcome. -/
structure RunTrace where
  ran : List (String × List String)
  result : Except String Unit

/-- Model of `runSPDZFunction` from `spdz_bootstrap/runSpdzFunction.js` with
a string program name (the `undefined`/non-string guards of the JavaScript
reduce to the length test on this domain).  The scripts' exit behaviour is
supplied by the environment: `stopResult`/`startResult` are the promise
outcomes `runScript` would produce (an error carries the collected stderr
text of a non-zero exit).  An invalid name is rejected before any script
runs; otherwise the stop script runs first and the start script only after
the stop script succeeded. -/
def runSPDZFunction (startScript stopScript : String) (playerId : Nat)
    (spdzProgram : String) (forceStop : Bool)
    (stopResult startResult : Except String Unit) : RunTrace :=
  if 0 < spdzProgram.length ∧ spdzProgram.length < 20 then
    if spdzProgram.data.all isProgramNameChar then
      match stopResult with
      | Except.error e =>
        { ran := [(stopScript, [toString playerId, if forceStop then "Y" else "N"])],
          result := Except.error e }
      | Except.ok _ =>
        { ran := [(stopScript, [toString playerId, if forceStop then "Y" else "N"]),
                  (startScript, [toString playerId, spdzProgram])],
          result := startResult }
    else
      { ran := [], result := Except.error "SPDZ Program name not accepted." }
  else
    { ran := [],
      result := Except.error "SPDZ Program name must be a string less than 20 chars." }

/-- C9: `runSPDZFunction` rejects, before spawning anything, every program
name that is not 1-19 characters of ASCII letters, digits and underscore;
for an accepted name the stop script runs first and the start script only
after the stop script succeeds, and a failing exit of either script makes
the whole call fail with that single error.  The 20-character name
`"01234567890123456789"` is rejected and `"spdz_Func1"` accepted. -/
theorem runSPDZFunction_spec (startScript stopScript : String) (playerId : Nat)
    (spdzProgram : String) (forceStop : Bool)
    (stopResult startResult : Except String Unit) :
    (validSpdzProgramName spdzProgram = false →
      (runSPDZFunction startScript stopScript playerId spdzProgram forceStop
        stopResult startResult).ran = [] ∧
      ∃ e, (runSPDZFunction startScript stopScript playerId spdzProgram forceStop
        stopResult startResult).result = Except.error e) ∧
    (validSpdzProgramName spdzProgram = true →
      (∀ e, stopResult = Except.error e →
        runSPDZFunction startScript stopScript playerId spdzProgram forceStop
            stopResult startResult
          = { ran := [(stopScript, [toString playerId, if forceStop then "Y" else "N"])],
              result := Except.error e }) ∧
      (stopResult = Except.ok () →
        runSPDZFunction startScript stopScript playerId spdzProgram forceStop
            stopResult startResult
          = { ran := [(stopScript, [toString playerId, if forceStop then "Y" else "N"]),
                      (startScript, [toString playerId, spdzProgram])],
              result := startResult })) ∧
    validSpdzProgramName "01234567890123456789" = false ∧
    validSpdzProgramName "spdz_Func1" = true := by
  have hval : validSpdzProgramName spdzProgram = true ↔
      ((0 < spdzProgram.length ∧ spdzProgram.length < 20) ∧
        spdzProgram.data.all isProgramNameChar = true) := by
    rw [validSpdzProgramName, Bool.and_eq_true, Bool.and_eq_true]
    simp only [decide_eq_true_eq]
  refine ⟨fun hbad => ?_, fun hgood => ?_, by decide, by decide⟩
  · rw [runSPDZFunction.eq_def]
    by_cases hlen : 0 < spdzProgram.length ∧ spdzProgram.length < 20
    · rw [if_pos hlen]
      by_cases hchars : spdzProgram.data.all isProgramNameChar = true
      · exfalso
        rw [hval.mpr ⟨hlen, hchars⟩] at hbad
        cases hbad
      · rw [if_neg hchars]
        exact ⟨rfl, _, rfl⟩
    · rw [if_neg hlen]
      exact ⟨rfl, _, rfl⟩
  · obtain ⟨hlen, hchars⟩ := hval.mp hgood
    refine ⟨fun e he => ?_, fun hok => ?_⟩
    · rw [runSPDZFunction.eq_def, if_pos hlen, if_pos hchars, he]
    · rw [runSPDZFunction.eq_def, if_pos hlen, if_pos hchars, hok]

/-- Witness for C9: the 20-character digit name is rejected with no script
run, and `"spdz_Func1"` runs stop then start. -/
theorem runSPDZFunction_spec_witness :
    ((runSPDZFunction "start.sh" "stop.sh" 1 "01234567890123456789" true
        (Except.ok ()) (Except.ok ())).ran = [] ∧
      ∃ e, (runSPDZFunction "start.sh" "stop.sh" 1 "01234567890123456789" true
        (Except.ok ()) (Except.ok ())).result = Except.error e) ∧
    runSPDZFunction "start.sh" "stop.sh" 1 "spdz_Func1" true
        (Except.ok ()) (Except.ok ())
      = { ran := [("stop.sh", ["1", "Y"]), ("start.sh", ["1", "spdz_Func1"])],
          result := Except.ok () } := by
  constructor
  · exact (runSPDZFunction_spec "start.sh" "stop.sh" 1 "01234567890123456789" true
      (Except.ok ()) (Except.ok ())).1 (by decide)
  · have h := ((runSPDZFunction_spec "start.sh" "stop.sh" 1 "spdz_Func1" true
      (Except.ok ()) (Except.ok ())).2.1 (by decide)).2 rfl
    rw [h]
    rfl

end SpdzProxy
